import Mathlib

/-!
Shallow embedding of `deep.py` (py_dependency_extractor).

The program is a linear pipeline: discover `.py`/`.ipynb` files under the
given paths, extract top-level imported module names from each file,
filter them against the installed-package index, and write a sorted
pinned manifest (`requirements.txt`).

External services (the UTF-8/latin-1 text decoders, CPython's `ast.parse`,
`json.load`, the filesystem, and the installed-package index) are modelled
as oracle functions supplied to the definitions: we embed the program's
control flow and data flow over their results, not CPython's parser
internals.  Python exceptions are modelled with `Except` and an explicit
exception-class hierarchy (`PyExc`), so that which `except` clause catches
what is visible in the embedding.

String primitives are re-expressed over `String.data` (the character
list) so that all definitions reduce in the kernel; they implement the
same character-level semantics as Python's `str.endswith`, `str.startswith`,
`s.split('.')[0]` and `str.lower` as used by the source.
-/

deriving instance DecidableEq for Except

/-- Raw, undecoded file content as handed to `open(...).read()`. -/
abbrev Bytes := List Nat

/-- Python `name.endswith(suf)`: `suf` is a character-suffix of `name`.
Mirrors `file.endswith(extensions)` (line 15) and `path.endswith(".py")`
(line 87) of `deep.py`. -/
def pyEndsWith (s suf : String) : Bool := suf.data.isSuffixOf s.data

/-- Python `name.startswith(p)`. Mirrors `d.startswith('.')` (line 12). -/
def pyStartsWith (s p : String) : Bool := p.data.isPrefixOf s.data

/-- Python `s.split('.')[0]`: the prefix of `s` before the first dot
(the whole string when there is no dot).  Mirrors
`....split('.')[0]` on lines 48-49 and 72-73 of `deep.py`. -/
def firstSegment (s : String) : String := ⟨s.data.takeWhile (fun c => c ≠ '.')⟩

/-- Python `s.lower()`, used by `dep.lower()` on line 110 of `deep.py`. -/
def pyLower (s : String) : String := ⟨s.data.map Char.toLower⟩

/-- The Python exception values that the modelled code can raise. -/
inductive PyExc where
  | unicodeDecodeError
  | jsonDecodeError
  | syntaxError
  | valueError
deriving DecidableEq

/-- Python's class hierarchy: `UnicodeDecodeError` and `json.JSONDecodeError`
are both subclasses of `ValueError`, so an `except ValueError` clause
catches them. -/
def PyExc.isValueError : PyExc → Bool
  | .unicodeDecodeError => true
  | .jsonDecodeError => true
  | .valueError => true
  | .syntaxError => false

/-- Membership in the `json.JSONDecodeError` class. -/
def PyExc.isJSONDecodeError : PyExc → Bool
  | .jsonDecodeError => true
  | _ => false

/-- One diagnostic message printed to standard output, one constructor per
`print` call of `deep.py` (the argument is the path interpolated into the
message). -/
inductive Diag where
  | searchingDir (path : String)
  | skippingInvalid (path : String)
  | noValidFiles
  | processingPy (path : String)
  | processingNb (path : String)
  | encodingIssue (path : String)
  | cannotDecode (path : String)
  | malformedCode (path : String)
  | malformedNotebook (path : String)
  | resolvingVersions
  | savedOutput (path : String)
deriving DecidableEq

/-- One node as yielded by `ast.walk(tree)`.  For `ast.Import` the Python
grammar guarantees at least one alias, and `deep.py` reads only
`node.names[0].name`, so the first alias name is kept separately from the
rest.  For `ast.ImportFrom`, `module` is `None` for a relative import with
no named module (`from . import x`) and `level` is the relative-import
level. -/
inductive AstNode where
  | importStmt (name0 : String) (restNames : List String)
  | importFrom (module : Option String) (level : Nat)
  | otherNode
deriving DecidableEq

/-- The list of nodes produced by walking a successfully parsed tree. -/
abbrev Ast := List AstNode

/-- Lines 48-49 (and identically 72-73) of `deep.py`:
the set of `node.names[0].name.split('.')[0]` over `ast.Import` nodes,
unioned with the set of `node.module.split('.')[0]` over `ast.ImportFrom`
nodes whose `node.module` is not `None`. -/
def importsOf (tree : Ast) : Finset String :=
  (tree.filterMap fun node =>
    match node with
    | .importStmt name0 _ => some (firstSegment name0)
    | _ => none).toFinset ∪
  (tree.filterMap fun node =>
    match node with
    | .importFrom (some m) _ => some (firstSegment m)
    | _ => none).toFinset

/-- One notebook cell: its declared `cell_type` and its `source`
fragments. -/
structure NbCell where
  cell_type : String
  source : List String
deriving DecidableEq

/-- A notebook document as returned by a successful `json.load` (the code
accesses `nb["cells"]` without further checks, so a successfully loaded
document is modelled as already notebook-shaped). -/
structure NbDoc where
  cells : List NbCell
deriving DecidableEq

/-- Lines 65-66 of `deep.py`: join each code cell's source fragments with
`"".join`, keep only cells whose `cell_type` is `"code"`, and join the
resulting blobs with newlines. -/
def nbCodeText (nb : NbDoc) : String :=
  String.intercalate "\n"
    ((nb.cells.filter fun cell => cell.cell_type = "code").map
      fun cell => String.join cell.source)

/-- The external services the pipeline calls, as result oracles:
`decodeUtf8 b = none` models `open(..., encoding="utf-8").read()` raising
`UnicodeDecodeError` on content `b`, and similarly for latin-1;
`astParse s = none` models `ast.parse(s)` raising `SyntaxError`;
`jsonLoad s = none` models `json.load` raising `json.JSONDecodeError`. -/
structure PyEnv where
  decodeUtf8 : Bytes → Option String
  decodeLatin1 : Bytes → Option String
  astParse : String → Option Ast
  jsonLoad : String → Option NbDoc

/-- Lines 19-25 of `deep.py`: `safe_parse` returns the tree, or `None`
plus the malformed-code diagnostic when `ast.parse` raises
`SyntaxError`. -/
def safe_parse (env : PyEnv) (code : String) (file_path : String) :
    Option Ast × List Diag :=
  match env.astParse code with
  | some tree => (some tree, [])
  | none => (none, [Diag.malformedCode file_path])

/-- Lines 44-51 of `deep.py` (shared verbatim with lines 68-75): run
`safe_parse` on decoded code and either return the empty set (parse
failure was skipped) or the extracted import set. -/
def pyParsePhase (env : PyEnv) (code : String) (file_path : String) :
    Except PyExc (Finset String) × List Diag :=
  match safe_parse env code file_path with
  | (none, d) => (.ok ∅, d)
  | (some tree, d) => (.ok (importsOf tree), d)

/-- Lines 27-51 of `deep.py`: `extract_imports_from_py`.  Reading with
UTF-8 first; a `UnicodeDecodeError` is caught (line 35) and latin-1 is
tried; a `UnicodeDecodeError` from that attempt is caught too (line 40)
and the file is skipped with an empty set.  The first component is the
function's outcome (`Except.error` would be an exception escaping to the
caller), the second the diagnostics printed. -/
def extract_imports_from_py (env : PyEnv) (file_path : String)
    (content : Bytes) : Except PyExc (Finset String) × List Diag :=
  match env.decodeUtf8 content with
  | some code =>
    match pyParsePhase env code file_path with
    | (r, d) => (r, [Diag.processingPy file_path] ++ d)
  | none =>
    match env.decodeLatin1 content with
    | some code =>
      match pyParsePhase env code file_path with
      | (r, d) =>
        (r, [Diag.processingPy file_path, Diag.encodingIssue file_path] ++ d)
    | none =>
      (.ok ∅, [Diag.processingPy file_path, Diag.encodingIssue file_path,
               Diag.cannotDecode file_path])

/-- The body of the `try` block on lines 57-59 of `deep.py`: read the file
as UTF-8 (which can raise `UnicodeDecodeError`), then `json.load` it
(which can raise `json.JSONDecodeError`). -/
def nbTryBlock (env : PyEnv) (content : Bytes) : Except PyExc NbDoc :=
  match env.decodeUtf8 content with
  | none => .error .unicodeDecodeError
  | some text =>
    match env.jsonLoad text with
    | none => .error .jsonDecodeError
    | some nb => .ok nb

/-- Line 60 of `deep.py`: the clause `except (json.JSONDecodeError,
ValueError)` catches an exception exactly when it is an instance of one of
the two listed classes. -/
def nbHandlerCatches (e : PyExc) : Bool := e.isJSONDecodeError || e.isValueError

/-- Lines 54-75 of `deep.py`: `extract_imports_from_ipynb`.  The single
`try` covers the UTF-8 read and the JSON parse; a caught exception skips
the file with an empty set and the malformed-notebook diagnostic; an
uncaught one propagates.  Note there is no latin-1 retry here. -/
def extract_imports_from_ipynb (env : PyEnv) (file_path : String)
    (content : Bytes) : Except PyExc (Finset String) × List Diag :=
  match nbTryBlock env content with
  | .error e =>
    if nbHandlerCatches e then
      (.ok ∅, [Diag.processingNb file_path, Diag.malformedNotebook file_path])
    else (.error e, [Diag.processingNb file_path])
  | .ok nb =>
    match pyParsePhase env (nbCodeText nb) file_path with
    | (r, d) => (r, [Diag.processingNb file_path] ++ d)

mutual
/-- A filesystem entry for the traversal model: a plain file, or a
directory with a readability flag (`readable = false` models `scandir`
raising `PermissionError` when `os.walk` visits it). -/
inductive FSTree where
  | file (name : String)
  | dir (name : String) (readable : Bool) (children : FSList)
/-- The listing of a directory. -/
inductive FSList where
  | nil
  | cons (head : FSTree) (tail : FSList)
end

/-- Line 15 (and the extension test on line 87) of `deep.py`:
`file.endswith((".py", ".ipynb"))`. -/
def matchesExt (name : String) : Bool :=
  pyEndsWith name ".py" || pyEndsWith name ".ipynb"

/-- Posix `os.path.join(dirpath, name)` as used on line 16. -/
def pathJoin (dirpath name : String) : String := dirpath ++ "/" ++ name

/-- The files collected from one `os.walk` triple (line 14-16 of
`deep.py`): every plain file of the listing whose name matches the
extensions, joined onto the directory path, in listing order. -/
def filesHere (dirpath : String) : FSList → List String
  | .nil => []
  | .cons (.file name) rest =>
    (if matchesExt name then [pathJoin dirpath name] else []) ++
      filesHere dirpath rest
  | .cons (.dir _ _ _) rest => filesHere dirpath rest

mutual
/-- The contribution of one child entry to the walk: files are not
descended into; a directory whose name starts with a dot was pruned from
`dirnames` on line 12 and contributes nothing; an unreadable directory
makes `scandir` fail inside `os.walk`, which ignores the error
(`onerror=None`, the default) and skips the subtree; otherwise the
subtree is walked: its own matching files first, then its subdirectories
in order. -/
def walkChild (parent : String) : FSTree → List String
  | .file _ => []
  | .dir name readable ch =>
    if pyStartsWith name "." then []
    else if readable then
      filesHere (pathJoin parent name) ch ++ walkSubdirs (pathJoin parent name) ch
    else []
/-- The walk over the (already pruned) children of a visited directory. -/
def walkSubdirs (dirpath : String) : FSList → List String
  | .nil => []
  | .cons t rest => walkChild dirpath t ++ walkSubdirs dirpath rest
end

/-- Lines 7-17 of `deep.py`: `find_files`.  `os.walk(root_dir)` with the
default `onerror=None` ignores the `scandir` failure on an unreadable
directory: an unreadable root yields no triples at all, so the result is
the empty list rather than a raised exception. -/
def find_files (root_dir : String) : FSTree → List String
  | .file _ => []
  | .dir _ readable children =>
    if readable then
      filesHere root_dir children ++ walkSubdirs root_dir children
    else []

mutual
/-- Every directory of the tree, the root included, is readable. -/
def allReadable : FSTree → Bool
  | .file _ => true
  | .dir _ readable children => readable && allReadableL children
/-- List version of `allReadable`. -/
def allReadableL : FSList → Bool
  | .nil => true
  | .cons t rest => allReadable t && allReadableL rest
end

/-- What the filesystem answers for one input path: `os.path.isdir` holds
and the path names this directory tree; or `os.path.isfile` holds; or
neither. -/
inductive PathInfo where
  | directory (tree : FSTree)
  | plainFile
  | neither

/-- The filesystem as seen by the orchestrator: how each input path
resolves, and the raw content behind each file path. -/
structure World where
  info : String → PathInfo
  contents : String → Bytes

/-- Lines 83-90 of `deep.py`: resolve each input path, queueing the files
discovered under a directory, queueing a file directly when its extension
is recognized, and emitting the skip diagnostic otherwise.  Returns the
queued files and the diagnostics, in program order. -/
def queuePhase (w : World) : List String → List String × List Diag
  | [] => ([], [])
  | path :: rest =>
    let this :=
      match w.info path with
      | .directory t => (find_files path t, [Diag.searchingDir path])
      | .plainFile =>
        if pyEndsWith path ".py" || pyEndsWith path ".ipynb" then ([path], [])
        else ([], [Diag.skippingInvalid path])
      | .neither => ([], [Diag.skippingInvalid path])
    let later := queuePhase w rest
    (this.1 ++ later.1, this.2 ++ later.2)

/-- Lines 97-100 of `deep.py`: route one queued file by extension to the
matching extractor. -/
def dispatchFile (env : PyEnv) (w : World) (file : String) :
    Except PyExc (Finset String) × List Diag :=
  if pyEndsWith file ".py" then
    extract_imports_from_py env file (w.contents file)
  else if pyEndsWith file ".ipynb" then
    extract_imports_from_ipynb env file (w.contents file)
  else (.ok ∅, [])

/-- Lines 96-100 of `deep.py`: the accumulation loop
`dependencies |= extract(...)`.  An exception escaping an extractor
aborts the loop and propagates (diagnostics printed so far are kept). -/
def processFiles (env : PyEnv) (w : World) :
    List String → Except PyExc (Finset String) × List Diag
  | [] => (.ok ∅, [])
  | file :: rest =>
    match dispatchFile env w file with
    | (.error e, d) => (.error e, d)
    | (.ok s, d) =>
      match processFiles env w rest with
      | (.error e, d2) => (.error e, d ++ d2)
      | (.ok s2, d2) => (.ok (s ∪ s2), d ++ d2)

/-- Line 110 of `deep.py`: `installed_packages.get(key, "")`.  The
installed-package index is the injected snapshot
`{pkg.key: pkg.version for pkg in pkg_resources.working_set}`; `pkg.key`
is the case-folded project name. -/
def pyDictGet (installed : String → Option String) (key : String) : String :=
  (installed key).getD ""

/-- Lines 108-112 of `deep.py`: one `<dep>==<version>\n` line per element
of `sorted(dependencies)` whose lowercased name has a non-empty version in
the index (`if version:` drops the empty default). -/
def manifestLines (dependencies : Finset String)
    (installed : String → Option String) : List String :=
  (dependencies.sort (fun a b => a ≤ b)).filterMap fun dep =>
    if pyDictGet installed (pyLower dep) = "" then none
    else some (dep ++ "==" ++ pyDictGet installed (pyLower dep) ++ "\n")

/-- The bytes written to the output file: the concatenation of the
manifest lines. -/
def manifestText (dependencies : Finset String)
    (installed : String → Option String) : String :=
  String.join (manifestLines dependencies installed)

/-- The names retained by the writer loop, in emission order (the
projection of `manifestLines` onto the name written in each line). -/
def manifestNames (dependencies : Finset String)
    (installed : String → Option String) : List String :=
  (dependencies.sort (fun a b => a ≤ b)).filter fun dep =>
    !decide (pyDictGet installed (pyLower dep) = "")

/-- The observable outcome of a completed run: `written = none` when the
run returned without touching the output file, `written = some lines`
when it wrote exactly those lines; plus the printed diagnostics. -/
structure RunResult where
  written : Option (List String)
  diags : List Diag
deriving DecidableEq

/-- Lines 78-114 of `deep.py`: `get_dependencies`.  Queue files from the
input paths; if none were queued, print the diagnostic and return without
writing; otherwise run the extractors, look versions up in the index and
write the manifest.  An exception escaping the loop propagates to the
caller. -/
def get_dependencies (env : PyEnv) (w : World)
    (installed : String → Option String) (paths : List String)
    (output_file : String) : Except PyExc RunResult :=
  let q := queuePhase w paths
  if q.1.isEmpty then
    .ok ⟨none, q.2 ++ [Diag.noValidFiles]⟩
  else
    match processFiles env w q.1 with
    | (.error e, _) => .error e
    | (.ok dependencies, pdiags) =>
      .ok ⟨some (manifestLines dependencies installed),
           q.2 ++ pdiags ++ [Diag.resolvingVersions, Diag.savedOutput output_file]⟩

/-- The per-file dependency contribution, and the fold the loop on lines
96-100 computes when no exception escapes (which the lemmas below show is
always). -/
def extractedSet (env : PyEnv) (w : World) (file : String) : Finset String :=
  match (dispatchFile env w file).1 with
  | .ok s => s
  | .error _ => ∅

/-- The union accumulated by the loop, starting from the empty set. -/
def pipelineDeps (env : PyEnv) (w : World) (files : List String) : Finset String :=
  files.foldl (fun s file => s ∪ extractedSet env w file) ∅

/-- Membership of an entry in a directory listing. -/
inductive MemFS : FSTree → FSList → Prop where
  | head (t : FSTree) (rest : FSList) : MemFS t (.cons t rest)
  | tail (t u : FSTree) (rest : FSList) : MemFS t rest → MemFS t (.cons u rest)

/-- Specification-side characterization of discovery, following the
contract of section 4.1 of the spec: a path is found beneath a directory
when it is a matching file of that directory, or is found beneath a child
directory whose name does not begin with a dot. -/
inductive SpecFound : String → FSTree → String → Prop where
  | here (dirpath dname : String) (r : Bool) (children : FSList) (fname : String) :
      MemFS (.file fname) children → matchesExt fname = true →
      SpecFound dirpath (.dir dname r children) (pathJoin dirpath fname)
  | deeper (dirpath dname : String) (r : Bool) (children : FSList)
      (sname : String) (sr : Bool) (sch : FSList) (p : String) :
      MemFS (.dir sname sr sch) children → pyStartsWith sname "." = false →
      SpecFound (pathJoin dirpath sname) (.dir sname sr sch) p →
      SpecFound dirpath (.dir dname r children) p

/-- Modelled from the spec (claim C2's wording, section 4.2 applied to the
notebook extractor): the decode policy the claim asserts for notebooks —
decode UTF-8 first, on failure retry latin-1 with the encoding-issue
diagnostic, skip only when both fail — followed by the JSON parse and the
shared name extraction.  This is the refinement target the code is
compared against; it is not what `deep.py` does. -/
def extract_imports_from_ipynb_claimed (env : PyEnv) (file_path : String)
    (content : Bytes) : Except PyExc (Finset String) × List Diag :=
  match env.decodeUtf8 content with
  | some text =>
    match env.jsonLoad text with
    | none => (.ok ∅, [Diag.processingNb file_path, Diag.malformedNotebook file_path])
    | some nb =>
      match pyParsePhase env (nbCodeText nb) file_path with
      | (r, d) => (r, [Diag.processingNb file_path] ++ d)
  | none =>
    match env.decodeLatin1 content with
    | some text =>
      match env.jsonLoad text with
      | none =>
        (.ok ∅, [Diag.processingNb file_path, Diag.encodingIssue file_path,
                 Diag.malformedNotebook file_path])
      | some nb =>
        match pyParsePhase env (nbCodeText nb) file_path with
        | (r, d) =>
          (r, [Diag.processingNb file_path, Diag.encodingIssue file_path] ++ d)
    | none =>
      (.ok ∅, [Diag.processingNb file_path, Diag.encodingIssue file_path,
               Diag.cannotDecode file_path])

/-- A passive oracle environment: every decode, parse and load fails. -/
def inertEnv : PyEnv :=
  ⟨fun _ => none, fun _ => none, fun _ => none, fun _ => none⟩

/-- A world in which no input path is a file or directory. -/
def emptyWorld : World := ⟨fun _ => PathInfo.neither, fun _ => []⟩

/-- The source text of the worked example of spec section 8. -/
def pyCodeStr : String := "import os.path\nfrom foo.bar import baz"

/-- The walked nodes CPython produces for `pyCodeStr`. -/
def osPathTree : Ast :=
  [AstNode.importStmt "os.path" [], AstNode.importFrom (some "foo.bar") 0]

/-- An environment whose only decodable content is `pyCodeStr` at byte
content `[1]`. -/
def osPathEnv : PyEnv :=
  { decodeUtf8 := fun b => if b = [1] then some pyCodeStr else none
    decodeLatin1 := fun _ => none
    astParse := fun s => if s = pyCodeStr then some osPathTree else none
    jsonLoad := fun _ => none }

/-- A world in which every path is a plain file with byte content `[1]`. -/
def plainPyWorld : World := ⟨fun _ => PathInfo.plainFile, fun _ => [1]⟩

/-- A notebook whose single code cell imports numpy. -/
def numpyNb : NbDoc := ⟨[⟨"code", ["import ", "numpy"]⟩]⟩

/-- An environment in which the UTF-8 decode of any content fails, while
the latin-1 decode succeeds and yields a well-formed notebook that
imports numpy. -/
def latinOnlyNbEnv : PyEnv :=
  { decodeUtf8 := fun _ => none
    decodeLatin1 := fun _ => some "NBTEXT"
    astParse := fun s =>
      if s = "import numpy" then some [AstNode.importStmt "numpy" []] else none
    jsonLoad := fun s => if s = "NBTEXT" then some numpyNb else none }

/-- An environment in which text decodes but is never valid JSON. -/
def brokenJsonEnv : PyEnv :=
  { decodeUtf8 := fun _ => some "not json"
    decodeLatin1 := fun _ => none
    astParse := fun _ => none
    jsonLoad := fun _ => none }

/-- A world whose every path resolves to one unreadable directory that
contains a Python file. -/
def unreadableRootWorld : World :=
  ⟨fun _ => PathInfo.directory (FSTree.dir "root" false (.cons (.file "a.py") .nil)),
   fun _ => []⟩

/-- A small fully readable tree: a matching file at the root, and a
subdirectory with one matching and one non-matching file. -/
def sampleTree : FSTree :=
  .dir "root" true (.cons (.file "a.py")
    (.cons (.dir "sub" true (.cons (.file "c.ipynb") (.cons (.file "d.txt") .nil)))
      .nil))

/-- An index in which only numpy is installed. -/
def oneNumpyIndex : String → Option String :=
  fun k => if k = "numpy" then some "1.0" else none

theorem pyParsePhase_fst_ok (env : PyEnv) (code path : String) :
    ∃ s, (pyParsePhase env code path).1 = Except.ok s := by
  cases h : env.astParse code <;>
    simp [pyParsePhase, safe_parse, h]

theorem extract_py_fst_ok (env : PyEnv) (path : String) (content : Bytes) :
    ∃ s, (extract_imports_from_py env path content).1 = Except.ok s := by
  cases h1 : env.decodeUtf8 content with
  | some code =>
    obtain ⟨s, hs⟩ := pyParsePhase_fst_ok env code path
    rcases hp : pyParsePhase env code path with ⟨r, d⟩
    rw [hp] at hs
    exact ⟨s, by simp [extract_imports_from_py, h1, hp, hs]⟩
  | none =>
    cases h2 : env.decodeLatin1 content with
    | some code =>
      obtain ⟨s, hs⟩ := pyParsePhase_fst_ok env code path
      rcases hp : pyParsePhase env code path with ⟨r, d⟩
      rw [hp] at hs
      exact ⟨s, by simp [extract_imports_from_py, h1, h2, hp, hs]⟩
    | none => exact ⟨∅, by simp [extract_imports_from_py, h1, h2]⟩

theorem extract_ipynb_fst_ok (env : PyEnv) (path : String) (content : Bytes) :
    ∃ s, (extract_imports_from_ipynb env path content).1 = Except.ok s := by
  cases h1 : env.decodeUtf8 content with
  | none =>
    exact ⟨∅, by simp [extract_imports_from_ipynb, nbTryBlock, h1,
      nbHandlerCatches, PyExc.isValueError, PyExc.isJSONDecodeError]⟩
  | some text =>
    cases h2 : env.jsonLoad text with
    | none =>
      exact ⟨∅, by simp [extract_imports_from_ipynb, nbTryBlock, h1, h2,
        nbHandlerCatches, PyExc.isValueError, PyExc.isJSONDecodeError]⟩
    | some nb =>
      obtain ⟨s, hs⟩ := pyParsePhase_fst_ok env (nbCodeText nb) path
      rcases hp : pyParsePhase env (nbCodeText nb) path with ⟨r, d⟩
      rw [hp] at hs
      exact ⟨s, by simp [extract_imports_from_ipynb, nbTryBlock, h1, h2, hp, hs]⟩

theorem dispatchFile_fst_ok (env : PyEnv) (w : World) (file : String) :
    ∃ s, (dispatchFile env w file).1 = Except.ok s := by
  by_cases hpy : pyEndsWith file ".py" = true
  · simpa [dispatchFile, hpy] using extract_py_fst_ok env file (w.contents file)
  · by_cases hnb : pyEndsWith file ".ipynb" = true
    · simpa [dispatchFile, hpy, hnb] using
        extract_ipynb_fst_ok env file (w.contents file)
    · exact ⟨∅, by simp [dispatchFile, hpy, hnb]⟩

theorem dispatchFile_extractedSet (env : PyEnv) (w : World) (file : String) :
    (dispatchFile env w file).1 = Except.ok (extractedSet env w file) := by
  obtain ⟨s, hs⟩ := dispatchFile_fst_ok env w file
  rw [hs, extractedSet, hs]

theorem foldl_union_init (g : String → Finset String) (l : List String)
    (s : Finset String) :
    l.foldl (fun a x => a ∪ g x) s = s ∪ l.foldl (fun a x => a ∪ g x) ∅ := by
  induction l generalizing s with
  | nil => simp
  | cons x l ih =>
    simp only [List.foldl_cons]
    rw [ih (s ∪ g x), ih (∅ ∪ g x)]
    simp [Finset.union_assoc]

theorem pipelineDeps_cons (env : PyEnv) (w : World) (file : String)
    (rest : List String) :
    pipelineDeps env w (file :: rest) =
      extractedSet env w file ∪ pipelineDeps env w rest := by
  simp only [pipelineDeps, List.foldl_cons]
  rw [foldl_union_init]
  simp

theorem processFiles_fst (env : PyEnv) (w : World) (files : List String) :
    (processFiles env w files).1 = Except.ok (pipelineDeps env w files) := by
  induction files with
  | nil => simp [processFiles, pipelineDeps]
  | cons file rest ih =>
    rcases hd : dispatchFile env w file with ⟨r, d⟩
    have hr : r = Except.ok (extractedSet env w file) := by
      have := dispatchFile_extractedSet env w file
      rw [hd] at this; exact this
    rcases hrest : processFiles env w rest with ⟨r2, d2⟩
    have hr2 : r2 = Except.ok (pipelineDeps env w rest) := by
      rw [hrest] at ih; exact ih
    subst hr hr2
    simp [processFiles, hd, hrest, pipelineDeps_cons]

theorem ends_ipynb_not_py {p : String} (h : pyEndsWith p ".ipynb" = true) :
    pyEndsWith p ".py" = false := by
  unfold pyEndsWith at h ⊢
  rw [List.isSuffixOf_iff_suffix] at h
  by_contra hc
  rw [Bool.not_eq_false, List.isSuffixOf_iff_suffix] at hc
  rcases List.suffix_or_suffix_of_suffix hc h with h1 | h1
  · exact absurd h1 (by decide)
  · exact absurd h1 (by decide)

/-- C1: for every notebook file whose outer document fails to parse as
valid structured data (JSON load fails), the notebook extractor returns
the empty set and emits a diagnostic, no exception escapes (the outcome
is `Except.ok`), and the processing loop continues with the remaining
files: the accumulated dependency set is exactly that of the remaining
files, with the bad file's diagnostics prepended. -/
theorem c1_notebook_parse_failure_recovered
    (env : PyEnv) (w : World) (path text : String) (rest : List String)
    (hext : pyEndsWith path ".ipynb" = true)
    (hdec : env.decodeUtf8 (w.contents path) = some text)
    (hjson : env.jsonLoad text = none) :
    extract_imports_from_ipynb env path (w.contents path) =
      (.ok ∅, [Diag.processingNb path, Diag.malformedNotebook path]) ∧
    (processFiles env w (path :: rest)).1 = (processFiles env w rest).1 ∧
    (processFiles env w (path :: rest)).2 =
      [Diag.processingNb path, Diag.malformedNotebook path] ++
        (processFiles env w rest).2 := by
  have hex : extract_imports_from_ipynb env path (w.contents path) =
      (.ok ∅, [Diag.processingNb path, Diag.malformedNotebook path]) := by
    simp [extract_imports_from_ipynb, nbTryBlock, hdec, hjson, nbHandlerCatches,
      PyExc.isJSONDecodeError, PyExc.isValueError]
  have hdisp : dispatchFile env w path =
      (.ok ∅, [Diag.processingNb path, Diag.malformedNotebook path]) := by
    simp [dispatchFile, ends_ipynb_not_py hext, hext, hex]
  rcases hrest : processFiles env w rest with ⟨r2, d2⟩
  have hr2 : r2 = Except.ok (pipelineDeps env w rest) := by
    have := processFiles_fst env w rest
    rw [hrest] at this; exact this
  subst hr2
  refine ⟨hex, ?_, ?_⟩
  · simp [processFiles, hdisp, hrest]
  · simp [processFiles, hdisp, hrest]

/-- Witness for C1 at a concrete broken notebook. -/
theorem c1_witness :
    pyEndsWith "a.ipynb" ".ipynb" = true ∧
    brokenJsonEnv.decodeUtf8 (emptyWorld.contents "a.ipynb") = some "not json" ∧
    brokenJsonEnv.jsonLoad "not json" = none ∧
    extract_imports_from_ipynb brokenJsonEnv "a.ipynb"
        (emptyWorld.contents "a.ipynb") =
      (.ok ∅, [Diag.processingNb "a.ipynb", Diag.malformedNotebook "a.ipynb"]) :=
  ⟨by decide, rfl, rfl,
    (c1_notebook_parse_failure_recovered brokenJsonEnv emptyWorld "a.ipynb"
      "not json" [] (by decide) rfl rfl).1⟩

/-- Counterexample to C2: at a content whose UTF-8 decode fails while the
latin-1 decode yields a valid notebook importing numpy, the notebook
extractor does not retry latin-1: it returns the empty set with the
malformed-notebook diagnostic, whereas the policy the claim asserts
(`extract_imports_from_ipynb_claimed`, the source extractor's decode
chain) would recover the numpy import via latin-1. -/
theorem c2_counterexample :
    extract_imports_from_ipynb latinOnlyNbEnv "nb.ipynb" [1] =
      (.ok ∅, [Diag.processingNb "nb.ipynb", Diag.malformedNotebook "nb.ipynb"]) ∧
    extract_imports_from_ipynb_claimed latinOnlyNbEnv "nb.ipynb" [1] =
      (.ok {"numpy"}, [Diag.processingNb "nb.ipynb", Diag.encodingIssue "nb.ipynb"]) ∧
    extract_imports_from_ipynb latinOnlyNbEnv "nb.ipynb" [1] ≠
      extract_imports_from_ipynb_claimed latinOnlyNbEnv "nb.ipynb" [1] :=
  ⟨by decide, by decide, by decide⟩

/-- C2 as amended: on a UTF-8 decode failure the notebook extractor skips
the file immediately — empty set and the malformed-notebook diagnostic,
no exception escaping, because `UnicodeDecodeError` is a `ValueError` and
is caught by the notebook handler — without any latin-1 retry (the result
does not consult `decodeLatin1` at all: it is the same for every
environment with the same failing UTF-8 decode). -/
theorem c2_amended_nb_decode_failure_skips
    (env : PyEnv) (path : String) (content : Bytes)
    (hdec : env.decodeUtf8 content = none) :
    extract_imports_from_ipynb env path content =
      (.ok ∅, [Diag.processingNb path, Diag.malformedNotebook path]) := by
  simp [extract_imports_from_ipynb, nbTryBlock, hdec, nbHandlerCatches,
    PyExc.isJSONDecodeError, PyExc.isValueError]

/-- Witness for the amended C2 at a concrete environment. -/
theorem c2_amended_witness :
    inertEnv.decodeUtf8 [] = none ∧
    extract_imports_from_ipynb inertEnv "x.ipynb" [] =
      (.ok ∅, [Diag.processingNb "x.ipynb", Diag.malformedNotebook "x.ipynb"]) :=
  ⟨rfl, c2_amended_nb_decode_failure_skips inertEnv "x.ipynb" [] rfl⟩

/-- Counterexample to C4: with an unreadable root directory containing a
Python file, traversal does not propagate any failure — `os.walk` with
the default `onerror=None` ignores the `scandir` error — so discovery
returns the empty list and the run terminates normally (with the
no-valid-files diagnostic and no write), instead of crashing. -/
theorem c4_counterexample :
    find_files "root" (FSTree.dir "root" false (.cons (.file "a.py") .nil)) = [] ∧
    get_dependencies inertEnv unreadableRootWorld (fun _ => none) ["root"]
        "requirements.txt" =
      .ok ⟨none, [Diag.searchingDir "root", Diag.noValidFiles]⟩ :=
  ⟨by decide, by decide⟩

/-- C4 as amended: an unreadable root directory contributes no files
(`os.walk` silently ignores the scandir failure); no exception
propagates, and when it was the only input the run ends early with the
no-valid-files diagnostic and performs no write. -/
theorem c4_amended_unreadable_root_silently_empty
    (env : PyEnv) (w : World) (installed : String → Option String)
    (root_dir output_file name : String) (children : FSList)
    (hinfo : w.info root_dir = PathInfo.directory (FSTree.dir name false children)) :
    find_files root_dir (FSTree.dir name false children) = [] ∧
    get_dependencies env w installed [root_dir] output_file =
      .ok ⟨none, [Diag.searchingDir root_dir, Diag.noValidFiles]⟩ := by
  constructor
  · simp [find_files]
  · simp [get_dependencies, queuePhase, hinfo, find_files]

/-- Witness for the amended C4. -/
theorem c4_amended_witness :
    unreadableRootWorld.info "root" =
      PathInfo.directory (FSTree.dir "root" false (.cons (.file "a.py") .nil)) ∧
    get_dependencies inertEnv unreadableRootWorld (fun _ => none) ["root"] "out.txt" =
      .ok ⟨none, [Diag.searchingDir "root", Diag.noValidFiles]⟩ :=
  ⟨rfl, (c4_amended_unreadable_root_silently_empty inertEnv unreadableRootWorld
    (fun _ => none) "root" "out.txt" "root" (.cons (.file "a.py") .nil) rfl).2⟩

/-- C7: when the (non-empty) input paths queue no files at all, the
orchestrator ends the run early: it returns the no-valid-files diagnostic
after the queue-phase diagnostics, and `written = none` — the output file
is neither created nor overwritten. -/
theorem c7_no_files_no_write
    (env : PyEnv) (w : World) (installed : String → Option String)
    (paths : List String) (output_file : String)
    (hne : paths ≠ [])
    (hq : (queuePhase w paths).1 = []) :
    get_dependencies env w installed paths output_file =
      .ok ⟨none, (queuePhase w paths).2 ++ [Diag.noValidFiles]⟩ := by
  simp [get_dependencies, hq]

/-- Witness for C7: one input path that is neither a file nor a
directory. -/
theorem c7_witness :
    (["bogus"] : List String) ≠ [] ∧
    (queuePhase emptyWorld ["bogus"]).1 = [] ∧
    get_dependencies inertEnv emptyWorld (fun _ => none) ["bogus"] "requirements.txt" =
      .ok ⟨none, (queuePhase emptyWorld ["bogus"]).2 ++ [Diag.noValidFiles]⟩ :=
  ⟨by decide, by decide,
    c7_no_files_no_write inertEnv emptyWorld (fun _ => none) ["bogus"]
      "requirements.txt" (by decide) (by decide)⟩

/-- C3: extraction from successfully decoded and parsed source returns
exactly the set of first path segments of direct-import first names and
of named from-import modules — relative from-imports with no named module
contribute nothing — and on the worked example yields exactly os and
foo. -/
theorem c3_extraction_contract
    (env : PyEnv) (path : String) (content : Bytes) (code : String) (tree : Ast)
    (hdec : env.decodeUtf8 content = some code)
    (hparse : env.astParse code = some tree) :
    extract_imports_from_py env path content =
      (.ok (importsOf tree), [Diag.processingPy path]) ∧
    (∀ x, x ∈ importsOf tree ↔
      ((∃ n rest, AstNode.importStmt n rest ∈ tree ∧ x = firstSegment n) ∨
       (∃ m lvl, AstNode.importFrom (some m) lvl ∈ tree ∧ x = firstSegment m))) ∧
    importsOf [AstNode.importStmt "os.path" [], AstNode.importFrom (some "foo.bar") 0] =
      {"os", "foo"} := by
  refine ⟨?_, ?_, by decide⟩
  · simp [extract_imports_from_py, hdec, pyParsePhase, safe_parse, hparse]
  · intro x
    simp only [importsOf, Finset.mem_union, List.mem_toFinset, List.mem_filterMap]
    constructor
    · rintro (⟨a, ha, hm⟩ | ⟨a, ha, hm⟩)
      · cases a with
        | importStmt n rest =>
          left; refine ⟨n, rest, ha, ?_⟩; simpa using hm.symm
        | importFrom m lvl => simp at hm
        | otherNode => simp at hm
      · cases a with
        | importStmt n rest => simp at hm
        | importFrom m lvl =>
          cases m with
          | none => simp at hm
          | some mm =>
            right; refine ⟨mm, lvl, ha, ?_⟩; simpa using hm.symm
        | otherNode => simp at hm
    · rintro (⟨n, rest, ha, rfl⟩ | ⟨m, lvl, ha, rfl⟩)
      · exact Or.inl ⟨AstNode.importStmt n rest, ha, rfl⟩
      · exact Or.inr ⟨AstNode.importFrom (some m) lvl, ha, rfl⟩

/-- Witness for C3 at the worked example. -/
theorem c3_witness :
    osPathEnv.decodeUtf8 [1] = some pyCodeStr ∧
    osPathEnv.astParse pyCodeStr = some osPathTree ∧
    extract_imports_from_py osPathEnv "m.py" [1] =
      (.ok (importsOf osPathTree), [Diag.processingPy "m.py"]) :=
  ⟨by decide, by decide,
    (c3_extraction_contract osPathEnv "m.py" [1] pyCodeStr osPathTree
      (by decide) (by decide)).1⟩

/-- C10: a direct import statement contributes only the base name of its
first listed module; the second and later modules of the same statement
contribute nothing (the result does not depend on them at all). -/
theorem c10_only_first_alias (n : String) (rest : List String) (tree : Ast) :
    importsOf (AstNode.importStmt n rest :: tree) =
      insert (firstSegment n) (importsOf tree) ∧
    importsOf [AstNode.importStmt "a" ["b", "c"]] = {"a"} ∧
    "b" ∉ importsOf [AstNode.importStmt "a" ["b", "c"]] := by
  refine ⟨?_, by decide, by decide⟩
  simp [importsOf, List.filterMap_cons, List.toFinset_cons, Finset.insert_union]

theorem filterMap_if_eq {α β : Type} (l : List α) (p : α → Prop) [DecidablePred p]
    (g : α → β) :
    (l.filterMap fun a => if p a then none else some (g a)) =
    (l.filter fun a => !decide (p a)).map g := by
  induction l with
  | nil => rfl
  | cons a l ih =>
    by_cases h : p a <;>
      simp [List.filterMap_cons, List.filter_cons, h, ih]

/-- C5: the manifest only ever contains lines for names whose case-folded
form is mapped to a non-empty version by the installed-package index (so
no line has a blank or placeholder version), and a name whose case-folded
form is absent from the index is silently dropped. -/
theorem c5_manifest_only_installed
    (deps : Finset String) (installed : String → Option String) :
    (∀ line ∈ manifestLines deps installed,
      ∃ dep v, dep ∈ deps ∧ installed (pyLower dep) = some v ∧ v ≠ "" ∧
        line = dep ++ "==" ++ v ++ "\n") ∧
    (∀ dep, installed (pyLower dep) = none →
      dep ∉ manifestNames deps installed) := by
  constructor
  · intro line hline
    rw [manifestLines] at hline
    obtain ⟨dep, hdep, hsome⟩ := List.mem_filterMap.1 hline
    by_cases hv : pyDictGet installed (pyLower dep) = ""
    · rw [if_pos hv] at hsome; cases hsome
    · rw [if_neg hv] at hsome
      cases ho : installed (pyLower dep) with
      | none => exact absurd (by simp [pyDictGet, ho]) hv
      | some v =>
        have hgd : pyDictGet installed (pyLower dep) = v := by simp [pyDictGet, ho]
        refine ⟨dep, v, (Finset.mem_sort _).1 hdep, ho, ?_, ?_⟩
        · rw [hgd] at hv; exact hv
        · rw [hgd] at hsome; exact (Option.some.inj hsome).symm
  · intro dep hnone hmem
    rw [manifestNames] at hmem
    have hf := (List.mem_filter.1 hmem).2
    simp [pyDictGet, hnone] at hf

/-- Witness for C5: a name not in the index is dropped. -/
theorem c5_witness :
    oneNumpyIndex (pyLower "SciPy") = none ∧
    "SciPy" ∉ manifestNames {"NumPy"} oneNumpyIndex :=
  ⟨by decide,
    (c5_manifest_only_installed {"NumPy"} oneNumpyIndex).2 "SciPy" (by decide)⟩

/-- C6: the manifest consists of one name==version line per retained
dependency (every name of the input set whose lookup yields a non-empty
version, and no other), the retained names are in strictly ascending
lexicographic order, and each is written in its original case (the line
is built from the set element itself; only the lookup key is
case-folded). -/
theorem c6_manifest_sorted_lines
    (deps : Finset String) (installed : String → Option String) :
    manifestLines deps installed =
      (manifestNames deps installed).map
        (fun dep => dep ++ "==" ++ pyDictGet installed (pyLower dep) ++ "\n") ∧
    List.Sorted (fun a b => a < b) (manifestNames deps installed) ∧
    (∀ dep ∈ manifestNames deps installed, dep ∈ deps) ∧
    (∀ dep ∈ deps, pyDictGet installed (pyLower dep) ≠ "" →
      dep ∈ manifestNames deps installed) := by
  refine ⟨?_, ?_, ?_, ?_⟩
  · rw [manifestLines, manifestNames]
    exact filterMap_if_eq _ _ _
  · exact List.Pairwise.sublist (List.filter_sublist _) (Finset.sort_sorted_lt deps)
  · intro dep h
    exact (Finset.mem_sort _).1 (List.mem_filter.1 h).1
  · intro dep hdep hv
    rw [manifestNames]
    exact List.mem_filter.2 ⟨(Finset.mem_sort _).2 hdep, by simpa using hv⟩

/-- Witness for C6: concrete index and singleton dependency set. -/
theorem c6_witness :
    manifestLines {"NumPy"} oneNumpyIndex =
      (manifestNames {"NumPy"} oneNumpyIndex).map
        (fun dep => dep ++ "==" ++ pyDictGet oneNumpyIndex (pyLower dep) ++ "\n") ∧
    List.Sorted (fun a b => a < b) (manifestNames {"NumPy"} oneNumpyIndex) :=
  ⟨(c6_manifest_sorted_lines {"NumPy"} oneNumpyIndex).1,
   (c6_manifest_sorted_lines {"NumPy"} oneNumpyIndex).2.1⟩

/-- C8: the pipeline is a deterministic function of its inputs and the
index — running it twice on the same arguments gives the same result —
and the accumulated dependency set (hence the manifest text) does not
depend on the order in which the queued files are processed. -/
theorem c8_deterministic_pipeline
    (env : PyEnv) (w : World) (installed : String → Option String)
    (paths : List String) (output_file : String)
    (files1 files2 : List String) (hperm : files1.Perm files2) :
    get_dependencies env w installed paths output_file =
      get_dependencies env w installed paths output_file ∧
    (processFiles env w files1).1 = .ok (pipelineDeps env w files1) ∧
    pipelineDeps env w files1 = pipelineDeps env w files2 ∧
    manifestText (pipelineDeps env w files1) installed =
      manifestText (pipelineDeps env w files2) installed := by
  have hdeps : pipelineDeps env w files1 = pipelineDeps env w files2 := by
    unfold pipelineDeps
    exact hperm.foldl_eq' (fun x _ y _ z => by
      simp [Finset.union_assoc,
        Finset.union_comm (extractedSet env w x) (extractedSet env w y)]) ∅
  exact ⟨rfl, processFiles_fst env w files1, hdeps, by rw [hdeps]⟩

/-- Witness for C8 at a concrete pair of permuted file lists. -/
theorem c8_witness :
    (["a.ipynb", "m.py"] : List String).Perm ["m.py", "a.ipynb"] ∧
    pipelineDeps osPathEnv plainPyWorld ["a.ipynb", "m.py"] =
      pipelineDeps osPathEnv plainPyWorld ["m.py", "a.ipynb"] :=
  ⟨by decide,
    (c8_deterministic_pipeline osPathEnv plainPyWorld (fun _ => none) [] "r.txt"
      ["a.ipynb", "m.py"] ["m.py", "a.ipynb"] (by decide)).2.2.1⟩

theorem memFS_cons {t u : FSTree} {rest : FSList} :
    MemFS t (.cons u rest) ↔ t = u ∨ MemFS t rest := by
  constructor
  · intro h
    cases h with
    | head => exact Or.inl rfl
    | tail _ _ h' => exact Or.inr h'
  · rintro (rfl | h)
    · exact MemFS.head _ _
    · exact MemFS.tail _ _ _ h

theorem mem_filesHere : ∀ (ch : FSList) (dirpath p : String),
    p ∈ filesHere dirpath ch ↔
      ∃ fname, MemFS (.file fname) ch ∧ matchesExt fname = true ∧
        p = pathJoin dirpath fname
  | .nil, d, p => by
    constructor
    · intro h; exact absurd h (List.not_mem_nil p)
    · rintro ⟨f, hf, -, -⟩; cases hf
  | .cons (.file n) rest, d, p => by
    show p ∈ (if matchesExt n then [pathJoin d n] else []) ++ filesHere d rest ↔ _
    rw [List.mem_append, mem_filesHere rest d p]
    constructor
    · rintro (h | ⟨f, hf, hm, hp⟩)
      · by_cases he : matchesExt n = true
        · rw [if_pos he] at h
          rcases List.mem_singleton.1 h with rfl
          exact ⟨n, MemFS.head _ _, he, rfl⟩
        · rw [if_neg he] at h
          exact absurd h (List.not_mem_nil p)
      · exact ⟨f, MemFS.tail _ _ _ hf, hm, hp⟩
    · rintro ⟨f, hf, hm, hp⟩
      rcases memFS_cons.1 hf with heq | hf'
      · injection heq with hfn
        subst hfn
        exact Or.inl (by rw [hp, if_pos hm]; exact List.mem_singleton_self _)
      · exact Or.inr ⟨f, hf', hm, hp⟩
  | .cons (.dir a b c) rest, d, p => by
    show p ∈ filesHere d rest ↔ _
    rw [mem_filesHere rest d p]
    constructor
    · rintro ⟨f, hf, hm, hp⟩
      exact ⟨f, MemFS.tail _ _ _ hf, hm, hp⟩
    · rintro ⟨f, hf, hm, hp⟩
      rcases memFS_cons.1 hf with heq | hf'
      · cases heq
      · exact ⟨f, hf', hm, hp⟩

theorem mem_walkSubdirs : ∀ (ch : FSList) (dirpath p : String),
    p ∈ walkSubdirs dirpath ch ↔ ∃ t, MemFS t ch ∧ p ∈ walkChild dirpath t
  | .nil, d, p => by
    constructor
    · intro h; exact absurd h (List.not_mem_nil p)
    · rintro ⟨t, ht, -⟩; cases ht
  | .cons t rest, d, p => by
    show p ∈ walkChild d t ++ walkSubdirs d rest ↔ _
    rw [List.mem_append, mem_walkSubdirs rest d p]
    constructor
    · rintro (h | ⟨u, hu, hp⟩)
      · exact ⟨t, MemFS.head _ _, h⟩
      · exact ⟨u, MemFS.tail _ _ _ hu, hp⟩
    · rintro ⟨u, hu, hp⟩
      rcases memFS_cons.1 hu with rfl | hu'
      · exact Or.inl hp
      · exact Or.inr ⟨u, hu', hp⟩

theorem walkChild_file (d n : String) : walkChild d (.file n) = [] := rfl

theorem walkChild_dot (parent name : String) (sr : Bool) (sch : FSList)
    (h : pyStartsWith name "." = true) :
    walkChild parent (.dir name sr sch) = [] := by
  simp [walkChild, h]

theorem walkChild_dir_eq_find_files (parent name : String) (sr : Bool) (sch : FSList)
    (h : pyStartsWith name "." = false) :
    walkChild parent (.dir name sr sch) =
      find_files (pathJoin parent name) (.dir name sr sch) := by
  simp [walkChild, find_files, h]

theorem memFS_sizeOf {t : FSTree} {ch : FSList} (h : MemFS t ch) :
    sizeOf t < sizeOf ch := by
  induction h with
  | head rest => simp; omega
  | tail u rest hm ih => simp; omega

theorem allReadable_dir {n : String} {r : Bool} {ch : FSList}
    (h : allReadable (.dir n r ch) = true) :
    r = true ∧ allReadableL ch = true := by
  have h' : (r && allReadableL ch) = true := h
  rw [Bool.and_eq_true] at h'
  exact h'

theorem allReadableL_of_mem {t : FSTree} {ch : FSList} (hm : MemFS t ch)
    (h : allReadableL ch = true) : allReadable t = true := by
  induction hm with
  | head rest =>
    have h' : (allReadable t && allReadableL rest) = true := h
    rw [Bool.and_eq_true] at h'
    exact h'.1
  | tail u rest hmem ih =>
    have h' : (allReadable u && allReadableL rest) = true := h
    rw [Bool.and_eq_true] at h'
    exact ih h'.2

theorem find_files_mem_spec : ∀ (t : FSTree) (root p : String),
    allReadable t = true → (p ∈ find_files root t ↔ SpecFound root t p)
  | .file n, root, p, _ => by
    constructor
    · intro h; exact absurd h (List.not_mem_nil p)
    · intro hs; cases hs
  | .dir dname r ch, root, p, h => by
    obtain ⟨hr, hch⟩ := allReadable_dir h
    subst hr
    have hff : find_files root (.dir dname true ch) =
        filesHere root ch ++ walkSubdirs root ch := rfl
    rw [hff, List.mem_append, mem_filesHere, mem_walkSubdirs]
    constructor
    · rintro (⟨f, hf, hm, rfl⟩ | ⟨t, ht, hp⟩)
      · exact SpecFound.here root dname true ch f hf hm
      · cases t with
        | file n =>
          rw [walkChild_file] at hp
          exact absurd hp (List.not_mem_nil p)
        | dir sname sr sch =>
          by_cases hdot : pyStartsWith sname "." = true
          · rw [walkChild_dot root sname sr sch hdot] at hp
            exact absurd hp (List.not_mem_nil p)
          · have hdot' : pyStartsWith sname "." = false :=
              Bool.eq_false_iff.2 hdot
            have hard := allReadableL_of_mem ht hch
            obtain ⟨hsr, hsch⟩ := allReadable_dir hard
            subst hsr
            rw [walkChild_dir_eq_find_files root sname true sch hdot'] at hp
            exact SpecFound.deeper root dname true ch sname true sch p ht hdot'
              ((find_files_mem_spec (.dir sname true sch) (pathJoin root sname) p
                hard).1 hp)
    · intro hs
      cases hs with
      | here _ _ _ _ fname hf hm => exact Or.inl ⟨fname, hf, hm, rfl⟩
      | deeper _ _ _ _ sname sr sch _ hmem hdot hsub =>
        have hard := allReadableL_of_mem hmem hch
        obtain ⟨hsr, hsch⟩ := allReadable_dir hard
        subst hsr
        refine Or.inr ⟨.dir sname true sch, hmem, ?_⟩
        rw [walkChild_dir_eq_find_files root sname true sch hdot]
        exact (find_files_mem_spec (.dir sname true sch) (pathJoin root sname) p
          hard).2 hsub
termination_by t root p h => sizeOf t
decreasing_by
  all_goals
    first
    | (have hlt := memFS_sizeOf ht
       simp only [FSTree.dir.sizeOf_spec] at hlt ⊢
       omega)
    | (have hlt := memFS_sizeOf hmem
       simp only [FSTree.dir.sizeOf_spec] at hlt ⊢
       omega)

/-- C9: for a fully readable root directory, discovery returns exactly
the paths of files with a recognized extension reachable from the root
without passing through a directory whose name begins with a dot. -/
theorem c9_discovery_exact (root_dir : String) (t : FSTree) (p : String)
    (h : allReadable t = true) :
    p ∈ find_files root_dir t ↔ SpecFound root_dir t p :=
  find_files_mem_spec t root_dir p h

/-- Witness for C9 on a concrete readable tree. -/
theorem c9_witness :
    allReadable sampleTree = true ∧
    ("root/sub/c.ipynb" ∈ find_files "root" sampleTree ↔
      SpecFound "root" sampleTree "root/sub/c.ipynb") :=
  ⟨by decide, c9_discovery_exact "root" sampleTree "root/sub/c.ipynb" (by decide)⟩
